import Mathlib

/-!
Verification of the punctuation normalization engine of
`kazumamorisita/punctuation_changer` (`src/main.py`).

Text is embedded as `List Char`.  Python dictionaries indexed with `[...]`
(which may raise `KeyError`) are embedded as `Option`-valued lookups, and
any function that performs such an indexing returns `Option`.  Styles,
modes and widths are the `String` values the program uses
(`"jp"`, `"en"`, `"auto"`, `"check"`, `"convert"`, `"full"`, `"half"`).
-/

namespace PunctuationChanger

/-- The six canonical sign roles (module-level string constants in the
source; embedded as a closed inductive since the role strings are only
ever compared for equality and used as dictionary keys). -/
inductive SignRole where
  | JP_COMMA
  | JP_PERIOD
  | EN_COMMA_FULL
  | EN_COMMA_HALF
  | EN_PERIOD_FULL
  | EN_PERIOD_HALF
deriving DecidableEq, Repr, Fintype

open SignRole

/-- `SIGN_MAP`: glyph → role dictionary (`src/main.py`). -/
def SIGN_MAP (ch : Char) : Option SignRole :=
  if ch = '、' then some JP_COMMA
  else if ch = '。' then some JP_PERIOD
  else if ch = '，' then some EN_COMMA_FULL
  else if ch = ',' then some EN_COMMA_HALF
  else if ch = '．' then some EN_PERIOD_FULL
  else if ch = '.' then some EN_PERIOD_HALF
  else none

/-- Inner table `OUTPUT_MAP["jp"]["full"]`. -/
def OUTPUT_MAP_jp_full : SignRole → Option Char
  | JP_COMMA => some '、'
  | JP_PERIOD => some '。'
  | EN_COMMA_FULL => some '、'
  | EN_COMMA_HALF => some '、'
  | EN_PERIOD_FULL => some '。'
  | EN_PERIOD_HALF => some '。'

/-- Inner table `OUTPUT_MAP["jp"]["half"]`. -/
def OUTPUT_MAP_jp_half : SignRole → Option Char
  | JP_COMMA => some '､'
  | JP_PERIOD => some '｡'
  | EN_COMMA_FULL => some '､'
  | EN_COMMA_HALF => some '､'
  | EN_PERIOD_FULL => some '｡'
  | EN_PERIOD_HALF => some '｡'

/-- Inner table `OUTPUT_MAP["en"]["full"]`. -/
def OUTPUT_MAP_en_full : SignRole → Option Char
  | JP_COMMA => some '，'
  | JP_PERIOD => some '．'
  | EN_COMMA_FULL => some '，'
  | EN_COMMA_HALF => some '，'
  | EN_PERIOD_FULL => some '．'
  | EN_PERIOD_HALF => some '．'

/-- Inner table `OUTPUT_MAP["en"]["half"]`. -/
def OUTPUT_MAP_en_half : SignRole → Option Char
  | JP_COMMA => some ','
  | JP_PERIOD => some '.'
  | EN_COMMA_FULL => some ','
  | EN_COMMA_HALF => some ','
  | EN_PERIOD_FULL => some '.'
  | EN_PERIOD_HALF => some '.'

/-- `OUTPUT_MAP`: style → width → (role → glyph), a nested dictionary.
The two outer levels are fallible dictionary indexings in the source
(`OUTPUT_MAP[active_style][target_width]`), hence `Option`-valued. -/
def OUTPUT_MAP (style : String) : Option (String → Option (SignRole → Option Char)) :=
  if style = "jp" then
    some (fun w =>
      if w = "full" then some OUTPUT_MAP_jp_full
      else if w = "half" then some OUTPUT_MAP_jp_half
      else none)
  else if style = "en" then
    some (fun w =>
      if w = "full" then some OUTPUT_MAP_en_full
      else if w = "half" then some OUTPUT_MAP_en_half
      else none)
  else none

/-- `ROLE_TO_STYLE` dictionary: total over the six roles. -/
def ROLE_TO_STYLE : SignRole → String
  | JP_COMMA => "jp"
  | JP_PERIOD => "jp"
  | EN_COMMA_FULL => "en"
  | EN_COMMA_HALF => "en"
  | EN_PERIOD_FULL => "en"
  | EN_PERIOD_HALF => "en"

/-- `detect_style` (`src/main.py`): tally jp-family vs en-family sign
occurrences with two counters and classify. -/
def detect_style (text : List Char) : String :=
  let counts : Nat × Nat :=
    text.foldl (fun acc ch =>
      match SIGN_MAP ch with
      | some t =>
        if t = JP_COMMA ∨ t = JP_PERIOD then (acc.1 + 1, acc.2)
        else (acc.1, acc.2 + 1)
      | none => acc) (0, 0)
  if counts.1 ≠ 0 ∧ counts.2 ≠ 0 then "mixed"
  else if counts.1 ≠ 0 then "jp"
  else if counts.2 ≠ 0 then "en"
  else "none"

/-- `create_message` (`src/main.py`): fixed per-role message. -/
def create_message : SignRole → String
  | JP_COMMA => "日本語の読点（、）が見つかりました"
  | JP_PERIOD => "日本語の句点（。）が見つかりました"
  | EN_COMMA_FULL => "英語のコンマ（全角：，）が見つかりました"
  | EN_COMMA_HALF => "英語のコンマ（半角：,）が見つかりました"
  | EN_PERIOD_FULL => "英語のピリオド（全角：．）が見つかりました"
  | EN_PERIOD_HALF => "英語のピリオド（半角：.）が見つかりました"

/-- An Issue record appended by `process_line`. -/
structure Issue where
  line : Nat
  index : Nat
  type : SignRole
  message : String
deriving DecidableEq, Repr

/-- A Change record appended by `process_line` in convert mode. -/
structure Change where
  line : Nat
  position : Nat
  original : Char
  converted : Char
deriving DecidableEq, Repr

/-- `process_line` body (`src/main.py`), one step per character; `i` is the
running `enumerate` index.  Returns `(new_chars, issues, changes)`, or `none`
when a dictionary indexing fails (`KeyError`). -/
def process_line_go (line_no : Nat) (mode : String) (active_style : Option String)
    (width : String) (global_start_pos : Nat) :
    List Char → Nat → Option (List Char × List Issue × List Change)
  | [], _ => some ([], [], [])
  | ch :: rest, i =>
    match SIGN_MAP ch with
    | none =>
      (process_line_go line_no mode active_style width global_start_pos rest (i + 1)).map
        (fun r => (ch :: r.1, r.2.1, r.2.2))
    | some sign_type =>
      let _sign_style := ROLE_TO_STYLE sign_type
      let issue : Issue :=
        { line := line_no, index := i, type := sign_type,
          message := create_message sign_type }
      match active_style with
      | some s =>
        if mode = "convert" ∧ s ≠ "" then
          let target_width : String :=
            if width = "auto" then (if s = "jp" then "full" else "half") else width
          match OUTPUT_MAP s with
          | none => none
          | some by_width =>
            match by_width target_width with
            | none => none
            | some table =>
              let new_ch := (table sign_type).getD ch
              let new_changes : List Change :=
                if new_ch ≠ ch then
                  [{ line := line_no, position := global_start_pos + i,
                     original := ch, converted := new_ch }]
                else []
              (process_line_go line_no mode active_style width global_start_pos
                rest (i + 1)).map
                (fun r => (new_ch :: r.1, issue :: r.2.1, new_changes ++ r.2.2))
        else
          (process_line_go line_no mode active_style width global_start_pos rest
            (i + 1)).map (fun r => (ch :: r.1, issue :: r.2.1, r.2.2))
      | none =>
        (process_line_go line_no mode active_style width global_start_pos rest
          (i + 1)).map (fun r => (ch :: r.1, issue :: r.2.1, r.2.2))

/-- `process_line(line, line_no, mode, active_style, width, global_start_pos)`
(`src/main.py`). -/
def process_line (line : List Char) (line_no : Nat) (mode : String)
    (active_style : Option String) (width : String) (global_start_pos : Nat) :
    Option (List Char × List Issue × List Change) :=
  process_line_go line_no mode active_style width global_start_pos line 0

/-! ### Specification-side descriptions of the outputs -/

/-- Effective width resolution as the spec words it: `auto` picks `full`
for active style `jp` and `half` otherwise; `full`/`half` are literal. -/
def effective_width (s w : String) : String :=
  if w = "auto" then (if s = "jp" then "full" else "half") else w

/-- The rewrite-table lookup `OUTPUT_MAP[s][w][r]` as a single partial
function. -/
def rewrite_glyph (s w : String) (r : SignRole) : Option Char :=
  match OUTPUT_MAP s with
  | none => none
  | some by_width =>
    match by_width w with
    | none => none
    | some table => table r

/-- The glyph `process_line` emits for `ch` when converting with style `s`
at (already resolved) width `w`: table output for signs, identity
otherwise, with the defensive fallback to `ch`. -/
def convert_char (s w : String) (ch : Char) : Char :=
  match SIGN_MAP ch with
  | some r => (rewrite_glyph s w r).getD ch
  | none => ch

/-- The Issue record appended for role `r` at index `i` of line `line_no`. -/
def mk_issue (line_no i : Nat) (r : SignRole) : Issue :=
  { line := line_no, index := i, type := r, message := create_message r }

/-- The ordered Issues of a line: one per recognized sign occurrence,
left to right, carrying the index within the line. -/
def line_issues (line : List Char) (line_no : Nat) : List Issue :=
  line.enum.filterMap (fun p => (SIGN_MAP p.2).map (mk_issue line_no p.1))

/-- The Change (if any) recorded at character `p.2`, index `p.1`, when
converting with style `s` at resolved width `w`. -/
def change_at (s w : String) (line_no pos : Nat) (p : Nat × Char) : Option Change :=
  match SIGN_MAP p.2 with
  | some r =>
    let new_ch := (rewrite_glyph s w r).getD p.2
    if new_ch ≠ p.2 then
      some { line := line_no, position := pos + p.1, original := p.2,
             converted := new_ch }
    else none
  | none => none

/-- The ordered Changes of a line converted with style `s` at resolved
width `w`: one per sign occurrence whose output glyph differs. -/
def line_changes (s w : String) (line : List Char) (line_no pos : Nat) : List Change :=
  line.enum.filterMap (change_at s w line_no pos)

/-- Pythonic truthiness of `active_style`: non-None and non-empty. -/
def style_truthy : Option String → Prop
  | none => False
  | some s => s ≠ ""

instance : DecidablePred style_truthy := fun o => by
  cases o with
  | none => exact .isFalse (fun h => h)
  | some s => exact inferInstanceAs (Decidable (s ≠ ""))

/-- Legal values of the `active_style` argument (`jp`, `en`, or None). -/
def legal_active_style (o : Option String) : Prop :=
  o = none ∨ o = some "jp" ∨ o = some "en"

/-- Legal values of the `width` argument. -/
def legal_width (w : String) : Prop :=
  w = "auto" ∨ w = "full" ∨ w = "half"

instance : DecidablePred legal_active_style := fun _ =>
  inferInstanceAs (Decidable (_ ∨ _))

instance : DecidablePred legal_width := fun _ =>
  inferInstanceAs (Decidable (_ ∨ _))

/-- Issues of the suffix of a line whose first character has index `i`. -/
def issues_from (line_no : Nat) (line : List Char) (i : Nat) : List Issue :=
  (line.enumFrom i).filterMap (fun p => (SIGN_MAP p.2).map (mk_issue line_no p.1))

/-! ### Request orchestration (`check_punctuation`, `src/main.py`)

The endpoint first resolves the user key and checks the usage quota;
those external collaborators are out of scope here, so the embedding
covers the endpoint from its validation block onward. -/

/-- Python `str.isspace` for a single character (the characters
`str.strip()` removes). -/
def py_isspace (c : Char) : Bool :=
  c.toNat ∈ [0x09, 0x0a, 0x0b, 0x0c, 0x0d, 0x1c, 0x1d, 0x1e, 0x1f, 0x20,
    0x85, 0xa0, 0x1680, 0x2000, 0x2001, 0x2002, 0x2003, 0x2004, 0x2005,
    0x2006, 0x2007, 0x2008, 0x2009, 0x200a, 0x2028, 0x2029, 0x202f,
    0x205f, 0x3000]

/-- Python `str.strip()`: drop leading and trailing whitespace. -/
def py_strip (l : List Char) : List Char :=
  ((l.dropWhile py_isspace).reverse.dropWhile py_isspace).reverse

/-- The request body (`CheckRequest` model in the source). -/
structure CheckRequest where
  text : List Char
  mode : String
  style : String
  width : String
deriving DecidableEq, Repr

/-- Errors the endpoint can raise: `HTTPException(status, detail)` from the
validation block, or an uncaught dictionary `KeyError` from processing. -/
inductive ApiError where
  | HTTPException (status : Nat) (detail : String)
  | keyError
deriving DecidableEq, Repr

/-- The JSON response of the endpoint (statistics kept as the list of
rendered strings; the summary object is flattened into three fields). -/
structure CheckResponse where
  result_text : List Char
  issues : List Issue
  changes : List Change
  statistics : List String
  detected_style : String
  applied_style : Option String
  total_changes : Nat
deriving DecidableEq, Repr

/-- Python `text.split("\n")`. -/
def split_lines : List Char → List (List Char)
  | [] => [[]]
  | c :: rest =>
    if c = '\n' then [] :: split_lines rest
    else
      match split_lines rest with
      | [] => [(c :: [])]
      | l :: ls => (c :: l) :: ls

/-- Python `"\n".join(result_lines)`. -/
def join_lines : List (List Char) → List Char
  | [] => []
  | l :: [] => l
  | l :: l2 :: ls => l ++ '\n' :: join_lines (l2 :: ls)

/-- The per-line loop of the endpoint: `enumerate(..., start=1)` with the
running global position advancing by `len(line) + 1`. -/
def process_lines (mode : String) (active_style : Option String) (width : String) :
    List (List Char) → Nat → Nat → Option (List (List Char) × List Issue × List Change)
  | [], _, _ => some ([], [], [])
  | l :: rest, line_no, pos => do
    let r ← process_line l line_no mode active_style width pos
    let rs ← process_lines mode active_style width rest (line_no + 1) (pos + l.length + 1)
    some (r.1 :: rs.1, r.2.1 ++ rs.2.1, r.2.2 ++ rs.2.2)

/-- The readable statistics block: one rendered string per role with a
nonzero count, in the fixed role order of the source. -/
def readable_stats (stats : SignRole → Nat) : List String :=
  (if stats JP_COMMA > 0 then
    ("日本語の読点（、）が" ++ toString (stats JP_COMMA) ++ "個") :: [] else []) ++
  (if stats JP_PERIOD > 0 then
    ("日本語の句点（。）が" ++ toString (stats JP_PERIOD) ++ "個") :: [] else []) ++
  (if stats EN_COMMA_FULL > 0 then
    ("英語のコンマ（全角：，）が" ++ toString (stats EN_COMMA_FULL) ++ "個") :: [] else []) ++
  (if stats EN_COMMA_HALF > 0 then
    ("英語のコンマ（半角：,）が" ++ toString (stats EN_COMMA_HALF) ++ "個") :: [] else []) ++
  (if stats EN_PERIOD_FULL > 0 then
    ("英語のピリオド（全角：．）が" ++ toString (stats EN_PERIOD_FULL) ++ "個") :: [] else []) ++
  (if stats EN_PERIOD_HALF > 0 then
    ("英語のピリオド（半角：.）が" ++ toString (stats EN_PERIOD_HALF) ++ "個") :: [] else [])

/-- `check_punctuation` (`src/main.py`) from its validation block onward:
validation, style detection, active-style resolution, per-line processing,
and response assembly. -/
def check_punctuation (req : CheckRequest) : Except ApiError CheckResponse :=
  if py_strip req.text = [] then
    .error (.HTTPException 400 "text が空です")
  else if req.text.length > 10000 then
    .error (.HTTPException 400 "text が長すぎます")
  else if ¬ (req.mode = "check" ∨ req.mode = "convert") then
    .error (.HTTPException 400 "mode が不正です")
  else if ¬ (req.style = "jp" ∨ req.style = "en" ∨ req.style = "auto") then
    .error (.HTTPException 400 "style が不正です")
  else if ¬ (req.width = "auto" ∨ req.width = "full" ∨ req.width = "half") then
    .error (.HTTPException 400 "width が不正です")
  else
    let detected_style := detect_style req.text
    let active_style : Option String :=
      if req.style = "auto" then
        (if detected_style = "jp" ∨ detected_style = "en"
         then some detected_style else none)
      else some req.style
    match process_lines req.mode active_style req.width (split_lines req.text) 1 0 with
    | none => .error .keyError
    | some res =>
      .ok {
        result_text := join_lines res.1,
        issues := res.2.1,
        changes := res.2.2,
        statistics := readable_stats
          (fun r => res.2.1.countP (fun iss => iss.type = r)),
        detected_style := detected_style,
        applied_style := active_style,
        total_changes := res.2.2.length
      }

/-! ### Specification-side descriptions for detection and orchestration -/

/-- The test under which `detect_style` increments its first counter:
`ch` maps to a role in `(JP_COMMA, JP_PERIOD)`. -/
def is_jp_count_char (ch : Char) : Bool :=
  match SIGN_MAP ch with
  | some t => t = JP_COMMA ∨ t = JP_PERIOD
  | none => false

/-- The test under which `detect_style` increments its second counter:
`ch` maps to a role outside `(JP_COMMA, JP_PERIOD)`. -/
def is_en_count_char (ch : Char) : Bool :=
  match SIGN_MAP ch with
  | some t => ¬ (t = JP_COMMA ∨ t = JP_PERIOD)
  | none => false

/-- Some character of `text` is a recognized sign of the `jp` family. -/
def has_jp_sign (text : List Char) : Bool :=
  text.any (fun ch =>
    match SIGN_MAP ch with
    | some r => ROLE_TO_STYLE r = "jp"
    | none => false)

/-- Some character of `text` is a recognized sign of the `en` family. -/
def has_en_sign (text : List Char) : Bool :=
  text.any (fun ch =>
    match SIGN_MAP ch with
    | some r => ROLE_TO_STYLE r = "en"
    | none => false)

/-- The Issues of a list of lines starting at line number `n`. -/
def lines_issues : List (List Char) → Nat → List Issue
  | [], _ => []
  | l :: ls, n => line_issues l n ++ lines_issues ls (n + 1)

/-- The active style the orchestration resolves: the requested style
literally, or for `auto` the detected style when it is `jp`/`en` and no
active style otherwise. -/
def resolved_style (req : CheckRequest) : Option String :=
  if req.style = "auto" then
    (if detect_style req.text = "jp" ∨ detect_style req.text = "en"
     then some (detect_style req.text) else none)
  else some req.style

/-- The response the endpoint assembles from a per-line processing
result `res = (lines, issues, changes)`. -/
def mk_response (req : CheckRequest)
    (res : List (List Char) × List Issue × List Change) : CheckResponse :=
  { result_text := join_lines res.1,
    issues := res.2.1,
    changes := res.2.2,
    statistics := readable_stats (fun r => res.2.1.countP (fun iss => iss.type = r)),
    detected_style := detect_style req.text,
    applied_style := resolved_style req,
    total_changes := res.2.2.length }

/-- A request that passes every validation check of the endpoint. -/
def valid_request (req : CheckRequest) : Prop :=
  py_strip req.text ≠ [] ∧ req.text.length ≤ 10000 ∧
  (req.mode = "check" ∨ req.mode = "convert") ∧
  (req.style = "jp" ∨ req.style = "en" ∨ req.style = "auto") ∧
  (req.width = "auto" ∨ req.width = "full" ∨ req.width = "half")

/-- The validation-failure condition as the spec words it: empty after
trimming, over-long, or mode/style/width outside their enumerations. -/
def validation_failure (req : CheckRequest) : Prop :=
  py_strip req.text = [] ∨ 10000 < req.text.length ∨
  ¬ (req.mode = "check" ∨ req.mode = "convert") ∨
  ¬ (req.style = "jp" ∨ req.style = "en" ∨ req.style = "auto") ∨
  ¬ (req.width = "auto" ∨ req.width = "full" ∨ req.width = "half")

instance : DecidablePred valid_request := fun req => by
  unfold valid_request; infer_instance

instance : DecidablePred validation_failure := fun req => by
  unfold validation_failure; infer_instance

/-! ### Characterization lemmas for `process_line` -/



theorem line_issues_eq_issues_from (line : List Char) (line_no : Nat) :
    line_issues line line_no = issues_from line_no line 0 := rfl

/-- When the rewrite branch is disabled (mode not `convert`, or no truthy
active style), `process_line_go` copies the line verbatim, emits one Issue
per sign, and records no Change. -/
theorem process_line_go_passthrough (line_no : Nat) (mode : String)
    (as : Option String) (w : String) (pos : Nat)
    (h : ¬ (mode = "convert" ∧ style_truthy as)) :
    ∀ (line : List Char) (i : Nat),
      process_line_go line_no mode as w pos line i =
        some (line, issues_from line_no line i, []) := by
  intro line
  induction line with
  | nil => intro i; rfl
  | cons ch rest ih =>
    intro i
    cases hm : SIGN_MAP ch with
    | none =>
      simp [process_line_go, hm, ih, issues_from, List.enumFrom, List.filterMap_cons]
    | some r =>
      cases as with
      | none =>
        simp [process_line_go, hm, ih, issues_from, List.enumFrom,
          List.filterMap_cons, mk_issue]
      | some s =>
        have hcond : ¬ (mode = "convert" ∧ s ≠ "") := h
        simp [process_line_go, hm, ih, hcond, issues_from, List.enumFrom,
          List.filterMap_cons, mk_issue]

/-- Technical core of the convert-mode characterization, parameterized by
the two successful dictionary indexings. -/
theorem process_line_go_convert_aux (line_no : Nat) (s w : String) (pos : Nat)
    (bw : String → Option (SignRole → Option Char)) (table : SignRole → Option Char)
    (hs : s ≠ "")
    (hOM : OUTPUT_MAP s = some bw)
    (htw : bw (if w = "auto" then (if s = "jp" then "full" else "half") else w) =
      some table)
    (htbl : ∀ r, table r = rewrite_glyph s (effective_width s w) r) :
    ∀ (line : List Char) (i : Nat),
      process_line_go line_no "convert" (some s) w pos line i =
        some (line.map (convert_char s (effective_width s w)),
              issues_from line_no line i,
              (line.enumFrom i).filterMap (change_at s (effective_width s w) line_no pos)) := by
  intro line
  induction line with
  | nil => intro i; rfl
  | cons ch rest ih =>
    intro i
    cases hm : SIGN_MAP ch with
    | none =>
      simp [process_line_go, hm, ih, issues_from, List.enumFrom,
        List.filterMap_cons, convert_char, change_at]
    | some r =>
      have hcond : ("convert" : String) = "convert" ∧ s ≠ "" := ⟨rfl, hs⟩
      have hconv : convert_char s (effective_width s w) ch =
          (rewrite_glyph s (effective_width s w) r).getD ch := by
        simp [convert_char, hm]
      simp only [process_line_go, hm, if_pos hcond, hOM, htw, ih,
        Option.map_some']
      simp only [issues_from, List.enumFrom, List.filterMap_cons, hm,
        Option.map_some', mk_issue, List.map_cons, hconv, htbl r, change_at]
      by_cases hne : (rewrite_glyph s (effective_width s w) r).getD ch = ch
      · simp [hne, mk_issue]
      · simp [hne, hs, mk_issue]

/-- Convert-mode characterization of `process_line_go` for legal style and
width arguments (the style is `jp` or `en`, so truthy, and the resolved
width hits a defined inner table). -/
theorem process_line_go_convert (line_no : Nat) (s w : String) (pos : Nat)
    (hs : s = "jp" ∨ s = "en") (hw : legal_width w) :
    ∀ (line : List Char) (i : Nat),
      process_line_go line_no "convert" (some s) w pos line i =
        some (line.map (convert_char s (effective_width s w)),
              issues_from line_no line i,
              (line.enumFrom i).filterMap
                (change_at s (effective_width s w) line_no pos)) := by
  rcases hs with rfl | rfl <;> rcases hw with rfl | rfl | rfl <;>
    exact process_line_go_convert_aux _ _ _ _ _ _ (by decide) rfl rfl (fun r => rfl)

/-- `process_line` copies the line verbatim with no Changes whenever the
rewrite branch is disabled. -/
theorem process_line_passthrough (line : List Char) (line_no : Nat) (mode : String)
    (as : Option String) (w : String) (pos : Nat)
    (h : ¬ (mode = "convert" ∧ style_truthy as)) :
    process_line line line_no mode as w pos =
      some (line, line_issues line line_no, []) :=
  process_line_go_passthrough line_no mode as w pos h line 0

/-- `process_line` in convert mode with an active style maps every
character through the rewrite table at the resolved width and records the
differing substitutions as Changes. -/
theorem process_line_convert (line : List Char) (line_no : Nat) (s w : String)
    (pos : Nat) (hs : s = "jp" ∨ s = "en") (hw : legal_width w) :
    process_line line line_no "convert" (some s) w pos =
      some (line.map (convert_char s (effective_width s w)),
            line_issues line line_no,
            line_changes s (effective_width s w) line line_no pos) :=
  process_line_go_convert line_no s w pos hs hw line 0


/-! ### Orchestration lemmas -/

theorem split_lines_ne_nil (text : List Char) : split_lines text ≠ [] := by
  cases text with
  | nil => simp [split_lines]
  | cons c rest =>
    simp only [split_lines]
    by_cases h : c = '\n'
    · simp [h]
    · simp only [if_neg h]
      cases hs : split_lines rest <;> simp

theorem join_split (text : List Char) : join_lines (split_lines text) = text := by
  induction text with
  | nil => rfl
  | cons c rest ih =>
    by_cases h : c = '\n'
    · subst h
      simp only [split_lines, if_pos rfl]
      cases hs : split_lines rest with
      | nil => exact absurd hs (split_lines_ne_nil rest)
      | cons l ls =>
        rw [hs] at ih
        simpa [join_lines] using ih
    · simp only [split_lines, if_neg h]
      cases hs : split_lines rest with
      | nil => exact absurd hs (split_lines_ne_nil rest)
      | cons l ls =>
        rw [hs] at ih
        cases ls with
        | nil => simpa [join_lines] using ih
        | cons l2 ls2 => simpa [join_lines] using ih

theorem mem_of_mem_split_lines (text : List Char) :
    ∀ l ∈ split_lines text, ∀ ch ∈ l, ch ∈ text := by
  induction text with
  | nil =>
    intro l hl ch hch
    simp [split_lines] at hl
    subst hl
    simp at hch
  | cons c rest ih =>
    intro l hl ch hch
    by_cases h : c = '\n'
    · subst h
      simp only [split_lines, if_pos rfl] at hl
      rcases List.mem_cons.mp hl with h0 | hl
      · subst h0; simp at hch
      · exact List.mem_cons_of_mem _ (ih l hl ch hch)
    · simp only [split_lines, if_neg h] at hl
      cases hs : split_lines rest with
      | nil => exact absurd hs (split_lines_ne_nil rest)
      | cons m ms =>
        rw [hs] at hl
        rcases List.mem_cons.mp hl with rfl | hl
        · rcases List.mem_cons.mp hch with rfl | hch
          · exact List.mem_cons_self _ _
          · exact List.mem_cons_of_mem _
              (ih m (hs ▸ List.mem_cons_self m ms) ch hch)
        · exact List.mem_cons_of_mem _
            (ih l (hs ▸ List.mem_cons_of_mem m hl) ch hch)

/-- For legal style and width arguments, `process_line` never fails and
its Issues are exactly the per-sign Issues of the line. -/
theorem process_line_total (line : List Char) (line_no : Nat) (mode : String)
    (as : Option String) (w : String) (pos : Nat)
    (ha : legal_active_style as) (hw : legal_width w) :
    ∃ out changes, process_line line line_no mode as w pos =
      some (out, line_issues line line_no, changes) := by
  by_cases h : mode = "convert" ∧ style_truthy as
  · obtain ⟨hm, ht⟩ := h
    subst hm
    rcases ha with rfl | rfl | rfl
    · exact absurd ht (by simp [style_truthy])
    · exact ⟨_, _, process_line_convert line line_no "jp" w pos (Or.inl rfl) hw⟩
    · exact ⟨_, _, process_line_convert line line_no "en" w pos (Or.inr rfl) hw⟩
  · exact ⟨_, _, process_line_passthrough line line_no mode as w pos h⟩

theorem process_lines_passthrough (mode : String) (as : Option String) (w : String)
    (h : ¬ (mode = "convert" ∧ style_truthy as)) :
    ∀ (lines : List (List Char)) (n pos : Nat),
      process_lines mode as w lines n pos =
        some (lines, lines_issues lines n, []) := by
  intro lines
  induction lines with
  | nil => intro n pos; rfl
  | cons l ls ih =>
    intro n pos
    simp [process_lines, process_line_passthrough l n mode as w pos h, ih,
      lines_issues]

theorem process_lines_total (mode : String) (as : Option String) (w : String)
    (ha : legal_active_style as) (hw : legal_width w) :
    ∀ (lines : List (List Char)) (n pos : Nat),
      ∃ outs changes, process_lines mode as w lines n pos =
        some (outs, lines_issues lines n, changes) := by
  intro lines
  induction lines with
  | nil => intro n pos; exact ⟨[], [], rfl⟩
  | cons l ls ih =>
    intro n pos
    obtain ⟨out, cs, hl⟩ := process_line_total l n mode as w pos ha hw
    obtain ⟨outs, css, hls⟩ := ih (n + 1) (pos + l.length + 1)
    exact ⟨out :: outs, cs ++ css, by simp [process_lines, hl, hls, lines_issues]⟩

theorem resolved_style_legal (req : CheckRequest)
    (hs : req.style = "jp" ∨ req.style = "en" ∨ req.style = "auto") :
    legal_active_style (resolved_style req) := by
  unfold resolved_style legal_active_style
  rcases hs with h | h | h
  · simp [h]
  · simp [h]
  · rw [if_pos h]
    by_cases hd : detect_style req.text = "jp" ∨ detect_style req.text = "en"
    · rcases hd with hd | hd <;> simp [hd]
    · simp [if_neg hd]

/-- A valid request is processed to completion: the per-line loop
succeeds and the endpoint returns the assembled response. -/
theorem check_punctuation_valid_eq (req : CheckRequest) (hv : valid_request req) :
    ∃ res, process_lines req.mode (resolved_style req) req.width
        (split_lines req.text) 1 0 = some res ∧
      check_punctuation req = .ok (mk_response req res) := by
  obtain ⟨h1, h2, h3, h4, h5⟩ := hv
  obtain ⟨outs, cs, hp⟩ := process_lines_total req.mode (resolved_style req)
    req.width (resolved_style_legal req h4) h5 (split_lines req.text) 1 0
  refine ⟨(outs, lines_issues (split_lines req.text) 1, cs), hp, ?_⟩
  unfold resolved_style at hp
  unfold check_punctuation
  rw [if_neg h1, if_neg (by omega : ¬ req.text.length > 10000),
      if_neg (not_not_intro h3), if_neg (not_not_intro h4),
      if_neg (not_not_intro h5)]
  simp only [hp, mk_response, resolved_style]

theorem check_punctuation_invalid (req : CheckRequest) (hv : validation_failure req) :
    ∃ d, check_punctuation req = .error (.HTTPException 400 d) := by
  by_cases h1 : py_strip req.text = []
  · refine ⟨"text が空です", ?_⟩
    unfold check_punctuation
    rw [if_pos h1]
  by_cases h2 : req.text.length > 10000
  · refine ⟨"text が長すぎます", ?_⟩
    unfold check_punctuation
    rw [if_neg h1, if_pos h2]
  by_cases h3 : ¬ (req.mode = "check" ∨ req.mode = "convert")
  · refine ⟨"mode が不正です", ?_⟩
    unfold check_punctuation
    rw [if_neg h1, if_neg h2, if_pos h3]
  by_cases h4 : ¬ (req.style = "jp" ∨ req.style = "en" ∨ req.style = "auto")
  · refine ⟨"style が不正です", ?_⟩
    unfold check_punctuation
    rw [if_neg h1, if_neg h2, if_neg h3, if_pos h4]
  by_cases h5 : ¬ (req.width = "auto" ∨ req.width = "full" ∨ req.width = "half")
  · refine ⟨"width が不正です", ?_⟩
    unfold check_punctuation
    rw [if_neg h1, if_neg h2, if_neg h3, if_neg h4, if_pos h5]
  exfalso
  unfold validation_failure at hv
  rcases hv with h | h | h | h | h
  · exact h1 h
  · exact h2 h
  · exact h3 h
  · exact h4 h
  · exact h5 h

theorem validation_failure_iff_not_valid (req : CheckRequest) :
    validation_failure req ↔ ¬ valid_request req := by
  unfold validation_failure valid_request
  constructor
  · rintro (h | h | h | h | h) ⟨h1, h2, h3, h4, h5⟩
    · exact h1 h
    · omega
    · exact h h3
    · exact h h4
    · exact h h5
  · intro hnv
    by_contra hno
    push_neg at hno
    obtain ⟨a, b, c, d, e⟩ := hno
    exact hnv ⟨a, by omega, c, d, e⟩

/-- `detect_style` only ever returns one of the four classification
strings. -/
theorem detect_style_mem (text : List Char) :
    detect_style text = "jp" ∨ detect_style text = "en" ∨
    detect_style text = "mixed" ∨ detect_style text = "none" := by
  unfold detect_style
  simp only [ne_eq]
  split
  · exact Or.inr (Or.inr (Or.inl rfl))
  · split
    · exact Or.inl rfl
    · split
      · exact Or.inr (Or.inl rfl)
      · exact Or.inr (Or.inr (Or.inr rfl))

/-- The fold of `detect_style` computes the two family counters. -/
theorem detect_style_fold (text : List Char) : ∀ acc : Nat × Nat,
    text.foldl (fun acc ch =>
      match SIGN_MAP ch with
      | some t =>
        if t = JP_COMMA ∨ t = JP_PERIOD then (acc.1 + 1, acc.2)
        else (acc.1, acc.2 + 1)
      | none => acc) acc =
    (acc.1 + text.countP is_jp_count_char,
     acc.2 + text.countP is_en_count_char) := by
  induction text with
  | nil => intro acc; simp
  | cons ch rest ih =>
    intro acc
    cases hm : SIGN_MAP ch with
    | none =>
      rw [List.foldl_cons]
      simp only [hm, ih, List.countP_cons, is_jp_count_char, is_en_count_char]
      simp
    | some t =>
      by_cases ht : t = JP_COMMA ∨ t = JP_PERIOD
      · rw [List.foldl_cons]
        simp only [hm, if_pos ht, ih, List.countP_cons, is_jp_count_char,
          is_en_count_char]
        simp only [ht, Prod.mk.injEq]
        constructor
        · simp; omega
        · simp
      · rw [List.foldl_cons]
        simp only [hm, if_neg ht, ih, List.countP_cons, is_jp_count_char,
          is_en_count_char]
        simp only [ht, Prod.mk.injEq]
        constructor
        · simp
        · simp [ht]; omega

theorem has_jp_sign_eq_any (text : List Char) :
    has_jp_sign text = text.any is_jp_count_char := by
  unfold has_jp_sign
  congr 1
  funext ch
  unfold is_jp_count_char
  cases SIGN_MAP ch with
  | none => rfl
  | some t => cases t <;> rfl

theorem has_en_sign_eq_any (text : List Char) :
    has_en_sign text = text.any is_en_count_char := by
  unfold has_en_sign
  congr 1
  funext ch
  unfold is_en_count_char
  cases SIGN_MAP ch with
  | none => rfl
  | some t => cases t <;> rfl

theorem countP_ne_zero_iff_any (p : Char → Bool) (l : List Char) :
    (l.countP p ≠ 0) ↔ l.any p = true := by
  rw [Ne, List.countP_eq_zero, List.any_eq_true]
  push_neg
  constructor
  · rintro ⟨a, ha, hp⟩
    exact ⟨a, ha, by simpa using hp⟩
  · rintro ⟨a, ha, hp⟩
    exact ⟨a, ha, by simpa using hp⟩

/-! ### Claim theorems -/

/-- C2: `detect_style` returns exactly one of `jp`, `en`, `mixed`, `none`,
determined solely by occurrences of the six recognized sign glyphs:
`mixed` when both a jp-family and an en-family sign occur, `jp` when only
jp-family signs occur, `en` when only en-family signs occur, and `none`
when no recognized sign occurs. -/
theorem C2_detect_style_characterization (text : List Char) :
    detect_style text =
      (if has_jp_sign text ∧ has_en_sign text then "mixed"
       else if has_jp_sign text then "jp"
       else if has_en_sign text then "en"
       else "none") := by
  unfold detect_style
  rw [detect_style_fold text (0, 0), has_jp_sign_eq_any, has_en_sign_eq_any]
  simp only [Nat.zero_add]
  by_cases hja : text.any is_jp_count_char = true <;>
    by_cases hea : text.any is_en_count_char = true
  · have h1 := (countP_ne_zero_iff_any is_jp_count_char text).mpr hja
    have h2 := (countP_ne_zero_iff_any is_en_count_char text).mpr hea
    simp [h1, h2, hja, hea]
  · have h1 := (countP_ne_zero_iff_any is_jp_count_char text).mpr hja
    have h2 : text.countP is_en_count_char = 0 := by
      by_contra h
      exact hea ((countP_ne_zero_iff_any is_en_count_char text).mp h)
    simp [h1, h2, hja, hea]
  · have h1 : text.countP is_jp_count_char = 0 := by
      by_contra h
      exact hja ((countP_ne_zero_iff_any is_jp_count_char text).mp h)
    have h2 := (countP_ne_zero_iff_any is_en_count_char text).mpr hea
    simp [h1, h2, hja, hea]
  · have h1 : text.countP is_jp_count_char = 0 := by
      by_contra h
      exact hja ((countP_ne_zero_iff_any is_jp_count_char text).mp h)
    have h2 : text.countP is_en_count_char = 0 := by
      by_contra h
      exact hea ((countP_ne_zero_iff_any is_en_count_char text).mp h)
    simp [h1, h2, hja, hea]

/-- C4: the rewrite table is total: for every style in `jp`/`en`, width in
`full`/`half` and each of the six roles, both outer dictionary indexings
succeed, the role has a defined output glyph, and the defensive `.get`
fallback to the original glyph is unreachable. -/
theorem C4_rewrite_table_total (s w : String) (r : SignRole)
    (hs : s = "jp" ∨ s = "en") (hw : w = "full" ∨ w = "half") :
    ∃ by_width table g, OUTPUT_MAP s = some by_width ∧ by_width w = some table ∧
      table r = some g ∧ ∀ ch : Char, (table r).getD ch = g := by
  rcases hs with rfl | rfl <;> rcases hw with rfl | rfl <;> cases r <;>
    exact ⟨_, _, _, rfl, rfl, rfl, fun ch => rfl⟩

theorem C4_rewrite_table_total_witness :
    ∃ by_width table g, OUTPUT_MAP "jp" = some by_width ∧
      by_width "full" = some table ∧ table JP_COMMA = some g ∧
      ∀ ch : Char, (table JP_COMMA).getD ch = g :=
  C4_rewrite_table_total "jp" "full" JP_COMMA (Or.inl rfl) (Or.inl rfl)

/-- C6: in `check` mode `process_line` returns the input line unchanged and
an empty list of Changes for every line, line number, active style, width
and offset. -/
theorem C6_check_mode_identity (line : List Char) (line_no : Nat)
    (as : Option String) (w : String) (pos : Nat) :
    process_line line line_no "check" as w pos =
      some (line, line_issues line line_no, []) :=
  process_line_passthrough line line_no "check" as w pos
    (fun h => absurd h.1 (by decide))

/-- C8: when a substitution is attempted, the effective width is the width
preference taken literally for `full`/`half`, and for `auto` it is `full`
exactly when the active style is `jp` and `half` otherwise; `process_line`
behaves identically with the width preference and with the resolved
effective width. -/
theorem C8_effective_width_resolution (line : List Char) (line_no : Nat)
    (s w : String) (pos : Nat) (hs : s = "jp" ∨ s = "en") (hw : legal_width w) :
    effective_width s "auto" = (if s = "jp" then "full" else "half") ∧
    (w ≠ "auto" → effective_width s w = w) ∧
    process_line line line_no "convert" (some s) w pos =
      process_line line line_no "convert" (some s) (effective_width s w) pos := by
  have hw2 : legal_width (effective_width s w) := by
    rcases hs with rfl | rfl <;> rcases hw with rfl | rfl | rfl <;> decide
  have heq : effective_width s (effective_width s w) = effective_width s w := by
    rcases hs with rfl | rfl <;> rcases hw with rfl | rfl | rfl <;> decide
  refine ⟨rfl, fun hne => by simp [effective_width, hne], ?_⟩
  rw [process_line_convert line line_no s w pos hs hw,
      process_line_convert line line_no s (effective_width s w) pos hs hw2, heq]

theorem C8_effective_width_resolution_witness :
    effective_width "en" "auto" = (if "en" = "jp" then "full" else "half") ∧
    ("auto" ≠ "auto" → effective_width "en" "auto" = "auto") ∧
    process_line ('.' :: []) 1 "convert" (some "en") "auto" 0 =
      process_line ('.' :: []) 1 "convert" (some "en")
        (effective_width "en" "auto") 0 :=
  C8_effective_width_resolution ('.' :: []) 1 "en" "auto" 0
    (Or.inr rfl) (Or.inl rfl)

/-- C1: a substitution is attempted exactly when the mode is `convert` and
an active style is set (non-None, non-empty); otherwise the original glyph
is copied and no Change is recorded.  When converting, each sign whose
output glyph differs yields exactly one Change at position
`global_start_pos + index`, carrying the original and converted glyphs,
and no Change is recorded when the glyphs coincide. -/
theorem C1_rewrite_decision_and_changes (line : List Char) (line_no : Nat)
    (mode : String) (as : Option String) (w : String) (pos : Nat)
    (ha : legal_active_style as) (hw : legal_width w) :
    (¬ (mode = "convert" ∧ style_truthy as) →
      process_line line line_no mode as w pos =
        some (line, line_issues line line_no, [])) ∧
    (∀ s, as = some s → mode = "convert" →
      process_line line line_no mode as w pos =
        some (line.map (convert_char s (effective_width s w)),
              line_issues line line_no,
              line_changes s (effective_width s w) line line_no pos)) := by
  constructor
  · intro h
    exact process_line_passthrough line line_no mode as w pos h
  · rintro s rfl rfl
    have hs : s = "jp" ∨ s = "en" := by
      rcases ha with h | h | h
      · exact absurd h (by simp)
      · exact Or.inl (Option.some.inj h)
      · exact Or.inr (Option.some.inj h)
    exact process_line_convert line line_no s w pos hs hw

theorem C1_rewrite_decision_and_changes_witness :
    process_line ('、' :: []) 1 "convert" (some "en") "half" 3 =
      some (('、' :: []).map (convert_char "en" (effective_width "en" "half")),
            line_issues ('、' :: []) 1,
            line_changes "en" (effective_width "en" "half") ('、' :: []) 1 3) :=
  (C1_rewrite_decision_and_changes ('、' :: []) 1 "convert" (some "en") "half" 3
    (by decide) (by decide)).2 "en" rfl rfl

/-- C5: in both modes, with or without an active style, `process_line`
emits exactly one Issue per recognized sign occurrence, in left-to-right
order, carrying the line number, the index within the line, the role and
the role's fixed message, and no Issue for any other character
(`line_issues` is exactly that list). -/
theorem C5_issues_per_sign (line : List Char) (line_no : Nat) (mode : String)
    (as : Option String) (w : String) (pos : Nat)
    (ha : legal_active_style as) (hw : legal_width w) :
    ∃ out changes, process_line line line_no mode as w pos =
      some (out, line_issues line line_no, changes) :=
  process_line_total line line_no mode as w pos ha hw

theorem C5_issues_per_sign_witness :
    ∃ out changes,
      process_line (',' :: 'x' :: '。' :: []) 2 "check" (some "en") "full" 7 =
        some (out, line_issues (',' :: 'x' :: '。' :: []) 2, changes) :=
  C5_issues_per_sign (',' :: 'x' :: '。' :: []) 2 "check" (some "en") "full" 7
    (by decide) (by decide)

/-- C10: the rewritten line has the same length as the input line, and
every position holding a character outside the six recognized signs holds
the identical character in the output. -/
theorem C10_frame_condition (line : List Char) (line_no : Nat) (mode : String)
    (as : Option String) (w : String) (pos : Nat)
    (ha : legal_active_style as) (hw : legal_width w) :
    ∃ out issues changes,
      process_line line line_no mode as w pos = some (out, issues, changes) ∧
      out.length = line.length ∧
      ∀ (i : Nat) (hi : i < line.length) (ho : i < out.length),
        SIGN_MAP (line.get ⟨i, hi⟩) = none →
        out.get ⟨i, ho⟩ = line.get ⟨i, hi⟩ := by
  by_cases h : mode = "convert" ∧ style_truthy as
  · obtain ⟨hm, ht⟩ := h
    subst hm
    have hs : ∃ s, as = some s ∧ (s = "jp" ∨ s = "en") := by
      rcases ha with rfl | rfl | rfl
      · exact absurd ht (by simp [style_truthy])
      · exact ⟨"jp", rfl, Or.inl rfl⟩
      · exact ⟨"en", rfl, Or.inr rfl⟩
    obtain ⟨s, rfl, hs⟩ := hs
    refine ⟨_, _, _, process_line_convert line line_no s w pos hs hw, by simp, ?_⟩
    intro i hi ho hnone
    simp only [List.get_eq_getElem] at hnone ⊢
    rw [List.getElem_map]
    simp [convert_char, hnone]
  · exact ⟨line, _, _, process_line_passthrough line line_no mode as w pos h,
      rfl, fun i hi ho _ => rfl⟩

theorem C10_frame_condition_witness :
    ∃ out issues changes,
      process_line ('a' :: '.' :: 'b' :: []) 1 "convert" (some "jp") "auto" 0 =
        some (out, issues, changes) ∧
      out.length = ('a' :: '.' :: 'b' :: []).length ∧
      ∀ (i : Nat) (hi : i < ('a' :: '.' :: 'b' :: []).length)
        (ho : i < out.length),
        SIGN_MAP (('a' :: '.' :: 'b' :: []).get ⟨i, hi⟩) = none →
        out.get ⟨i, ho⟩ = ('a' :: '.' :: 'b' :: []).get ⟨i, hi⟩ :=
  C10_frame_condition ('a' :: '.' :: 'b' :: []) 1 "convert" (some "jp") "auto" 0
    (by decide) (by decide)

theorem snd_mem_of_mem_enumFrom :
    ∀ (l : List Char) (i : Nat) (p : Nat × Char), p ∈ l.enumFrom i → p.2 ∈ l := by
  intro l
  induction l with
  | nil => intro i p hp; simp [List.enumFrom] at hp
  | cons c rest ih =>
    intro i p hp
    rw [List.enumFrom_cons] at hp
    rcases List.mem_cons.mp hp with rfl | hp
    · exact List.mem_cons_self _ _
    · exact List.mem_cons_of_mem _ (ih (i + 1) p hp)

/-- A line every character of which is a fixed point of `convert_char` is
left unchanged by convert mode, with no Changes. -/
theorem process_line_fixpoint (l : List Char) (n : Nat) (S W : String) (pos : Nat)
    (hS : S = "jp" ∨ S = "en") (hW : W = "full" ∨ W = "half")
    (hfix : ∀ ch ∈ l, convert_char S W ch = ch) :
    process_line l n "convert" (some S) W pos =
      some (l, line_issues l n, []) := by
  have heff : effective_width S W = W := by
    rcases hW with rfl | rfl <;> rfl
  have hpc := process_line_convert l n S W pos hS
    (by rcases hW with rfl | rfl
        · exact Or.inr (Or.inl rfl)
        · exact Or.inr (Or.inr rfl))
  rw [heff] at hpc
  have hmap : l.map (convert_char S W) = l := by
    have := List.map_congr_left (l := l) (f := convert_char S W) (g := id)
      (fun a ha => hfix a ha)
    rw [this, List.map_id]
  have hch : line_changes S W l n pos = [] := by
    unfold line_changes
    rw [List.filterMap_eq_nil_iff]
    intro p hp
    unfold change_at
    cases hm : SIGN_MAP p.2 with
    | none => rfl
    | some r =>
      have hc : (rewrite_glyph S W r).getD p.2 = p.2 := by
        have hfx := hfix p.2 (snd_mem_of_mem_enumFrom l 0 p hp)
        simpa [convert_char, hm] using hfx
      simp [hc]
  rw [hpc, hmap, hch]

/-- Lines all of whose characters are fixed points of `convert_char` pass
through the per-line loop unchanged, with no Changes. -/
theorem process_lines_fixpoint (S W : String)
    (hS : S = "jp" ∨ S = "en") (hW : W = "full" ∨ W = "half") :
    ∀ (lines : List (List Char)),
      (∀ l ∈ lines, ∀ ch ∈ l, convert_char S W ch = ch) →
      ∀ (n pos : Nat), process_lines "convert" (some S) W lines n pos =
        some (lines, lines_issues lines n, []) := by
  intro lines
  induction lines with
  | nil => intro _ n pos; rfl
  | cons l ls ih =>
    intro hfix n pos
    have hline := process_line_fixpoint l n S W pos hS hW
      (hfix l (List.mem_cons_self l ls))
    have hrest := ih (fun m hm => hfix m (List.mem_cons_of_mem l hm))
      (n + 1) (pos + l.length + 1)
    simp [process_lines, hline, hrest, lines_issues]

/-- C7: round-trip stability: converting a text already fully in target
style `S` at width `W` (every recognized sign is the glyph the rewrite
table outputs for `(S, W)`) yields zero Changes and a result text equal to
the input text. -/
theorem C7_round_trip_stability (text : List Char) (S W : String)
    (hS : S = "jp" ∨ S = "en") (hW : W = "full" ∨ W = "half")
    (hcanon : ∀ ch ∈ text, convert_char S W ch = ch) :
    ∃ issues, process_lines "convert" (some S) W (split_lines text) 1 0 =
      some (split_lines text, issues, []) ∧
      join_lines (split_lines text) = text := by
  refine ⟨lines_issues (split_lines text) 1, ?_, join_split text⟩
  exact process_lines_fixpoint S W hS hW (split_lines text)
    (fun l hl ch hch => hcanon ch (mem_of_mem_split_lines text l hl ch hch)) 1 0

theorem C7_round_trip_stability_witness :
    ∃ issues,
      process_lines "convert" (some "jp") "full"
        (split_lines ('猫' :: '、' :: '鳴' :: '。' :: '\n' :: 'x' :: [])) 1 0 =
        some (split_lines ('猫' :: '、' :: '鳴' :: '。' :: '\n' :: 'x' :: []),
              issues, []) ∧
      join_lines (split_lines ('猫' :: '、' :: '鳴' :: '。' :: '\n' :: 'x' :: [])) =
        ('猫' :: '、' :: '鳴' :: '。' :: '\n' :: 'x' :: []) :=
  C7_round_trip_stability ('猫' :: '、' :: '鳴' :: '。' :: '\n' :: 'x' :: [])
    "jp" "full" (Or.inl rfl) (Or.inl rfl) (by decide)

/-- C3: for a valid request, the resolved active style is the requested
style literally for `jp`/`en`, and for `auto` it is the detected style
when that is `jp`/`en` and no active style otherwise; in the latter case a
convert-mode request returns the input text, zero Changes, and all
per-sign Issues are still reported. -/
theorem C3_auto_style_resolution (req : CheckRequest) (hv : valid_request req) :
    ∃ resp, check_punctuation req = .ok resp ∧
      resp.applied_style = resolved_style req ∧
      (req.style = "auto" →
        resolved_style req =
          (if detect_style req.text = "jp" ∨ detect_style req.text = "en"
           then some (detect_style req.text) else none)) ∧
      ((req.style = "jp" ∨ req.style = "en") →
        resp.applied_style = some req.style) ∧
      (req.mode = "convert" → req.style = "auto" →
        (detect_style req.text = "mixed" ∨ detect_style req.text = "none") →
        resp.result_text = req.text ∧ resp.changes = [] ∧
        resp.issues = lines_issues (split_lines req.text) 1) := by
  obtain ⟨res, hpl, hok⟩ := check_punctuation_valid_eq req hv
  refine ⟨mk_response req res, hok, rfl, fun hauto => by rw [resolved_style, if_pos hauto],
    ?_, ?_⟩
  · rintro (h | h) <;>
      simp [mk_response, resolved_style, h]
  · intro _ hauto hd
    have hne : ¬ (detect_style req.text = "jp" ∨ detect_style req.text = "en") := by
      rcases hd with h | h <;> rw [h] <;> decide
    have hres : resolved_style req = none := by
      rw [resolved_style, if_pos hauto, if_neg hne]
    have hpass := process_lines_passthrough req.mode none req.width
      (fun h => h.2) (split_lines req.text) 1 0
    rw [hres] at hpl
    rw [hpass] at hpl
    obtain rfl := Option.some.inj hpl
    refine ⟨?_, rfl, rfl⟩
    simpa [mk_response] using join_split req.text

theorem C3_auto_style_resolution_witness :
    ∃ resp,
      check_punctuation ⟨('a' :: '、' :: 'b' :: '.' :: []), "convert", "auto", "auto"⟩ =
        .ok resp ∧
      resp.applied_style =
        resolved_style ⟨('a' :: '、' :: 'b' :: '.' :: []), "convert", "auto", "auto"⟩ ∧
      (("auto" : String) = "auto" →
        resolved_style ⟨('a' :: '、' :: 'b' :: '.' :: []), "convert", "auto", "auto"⟩ =
          (if detect_style ('a' :: '、' :: 'b' :: '.' :: []) = "jp" ∨
              detect_style ('a' :: '、' :: 'b' :: '.' :: []) = "en"
           then some (detect_style ('a' :: '、' :: 'b' :: '.' :: [])) else none)) ∧
      ((("auto" : String) = "jp" ∨ ("auto" : String) = "en") →
        resp.applied_style = some "auto") ∧
      (("convert" : String) = "convert" → ("auto" : String) = "auto" →
        (detect_style ('a' :: '、' :: 'b' :: '.' :: []) = "mixed" ∨
         detect_style ('a' :: '、' :: 'b' :: '.' :: []) = "none") →
        resp.result_text = ('a' :: '、' :: 'b' :: '.' :: []) ∧ resp.changes = [] ∧
        resp.issues = lines_issues (split_lines ('a' :: '、' :: 'b' :: '.' :: [])) 1) :=
  C3_auto_style_resolution ⟨('a' :: '、' :: 'b' :: '.' :: []), "convert", "auto", "auto"⟩
    (by decide)

/-- C9: a request fails with an HTTP 400 validation error exactly when the
text is empty after trimming, over 10,000 characters, or mode/style/width
fall outside their enumerations; otherwise, and only then, processing runs
to completion and a result is produced. -/
theorem C9_validation_iff (req : CheckRequest) :
    ((∃ d, check_punctuation req = .error (.HTTPException 400 d)) ↔
      validation_failure req) ∧
    ((∃ resp, check_punctuation req = .ok resp) ↔ ¬ validation_failure req) := by
  by_cases hv : validation_failure req
  · obtain ⟨d, hd⟩ := check_punctuation_invalid req hv
    refine ⟨⟨fun _ => hv, fun _ => ⟨d, hd⟩⟩, ⟨?_, fun h => absurd hv h⟩⟩
    rintro ⟨resp, hr⟩
    rw [hd] at hr
    exact absurd hr (by simp)
  · have hval : valid_request req := by
      by_contra hnv
      exact hv ((validation_failure_iff_not_valid req).mpr hnv)
    obtain ⟨res, hpl, hok⟩ := check_punctuation_valid_eq req hval
    refine ⟨⟨?_, fun h => absurd h hv⟩, ⟨fun _ => hv, fun _ => ⟨_, hok⟩⟩⟩
    rintro ⟨d, hd⟩
    rw [hok] at hd
    exact absurd hd (by simp)

example : detect_style ('a' :: '、' :: 'b' :: '.' :: 'c' :: []) = "mixed" := by decide
example : detect_style ('a' :: 'b' :: 'c' :: []) = "none" := by decide
example : detect_style ('、' :: []) = "jp" := by decide
example : detect_style (',' :: []) = "en" := by decide

end PunctuationChanger
